import Mathlib

/-!
Verification of the phoenix-tls reference-counted thread-local cell
(src/src/lib.rs) against its specification.

The embedding models one thread's view of the library, which is the scope of
every sequential claim: the non-atomic counter is only ever touched from one
thread, so a single sequential state suffices.

  * `CellSt` is the heap cell `PhoenixImpl<T> { value, ref_count: Cell<usize> }`.
  * `phoenixNewTr` is `Phoenix::new`, `cloneStep` is `impl Clone for Phoenix`
    (release semantics, with `none` standing for the `nudge::abort()` on
    counter wrap), and `dropStep` is `impl Drop for Phoenix`.
  * The two `debug_assert!(count > 0, ..)` lines are modelled separately by
    `cloneDebugAssert` and `dropDebugAssert`, since they check state rather
    than change it.
  * Lifecycle observability is an event trace: `Ev.sub` / `Ev.unsub` are the
    `PhoenixTarget::subscribe` / `unsubscribe` callbacks, `Ev.free` is the
    release of the cell's box, `Ev.call` is an invocation of a caller-supplied
    closure. Traces are chronological.
  * `Slot` is the state of one thread's `thread_local!` storage for a
    `PhoenixKey`; `withCell` is `PhoenixKey::with`, `handleK` is
    `PhoenixKey::handle`, with `run_on_default` inlined on the torn-down arm
    exactly as the source's `None` branch calls it.
-/

namespace PhoenixTls

/-- Width of the reference counter. The source stores the count in a `usize`
(`ref_count: Cell<usize>`, src/src/lib.rs:60); we model the 64-bit target, so
counter arithmetic is taken modulo `2 ^ 64` exactly where the source uses
`usize::wrapping_add`. -/
def WORD : Nat := 2 ^ 64

/-- Lifecycle events observable during a call, in chronological order:
`sub`/`unsub` are the `PhoenixTarget::subscribe`/`unsubscribe` callbacks,
`free` is the release of the cell's heap box, `call` is an invocation of a
caller-supplied closure. -/
inductive Ev
  | sub
  | unsub
  | free
  | call
deriving DecidableEq, Repr

/-- The heap cell `PhoenixImpl<T> { value: T, ref_count: Cell<usize> }`
(src/src/lib.rs:58-61). -/
structure CellSt (T : Type) where
  value : T
  refCount : Nat
deriving DecidableEq, Repr

/-- `Phoenix::new` (src/src/lib.rs:119-131): allocate the cell with
`ref_count = 1` and the default value — `d` stands for `T::default()` — then
fire `subscribe` on the value before the owning handle is returned. The second
component is the trace of events emitted during the call. -/
def phoenixNewTr {T : Type} (d : T) : CellSt T × List Ev :=
  (⟨d, 1⟩, [Ev.sub])

/-- `impl Clone for Phoenix` (src/src/lib.rs:69-89), release semantics: read
the count, `wrapping_add(1)`, store the result, and `nudge::abort()` — here
`none` — when the stored count is `0`, i.e. when the increment wrapped. -/
def cloneStep {T : Type} (c : CellSt T) : Option (CellSt T) :=
  let newCount := (c.refCount + 1) % WORD
  if newCount = 0 then none else some { c with refCount := newCount }

/-- The `debug_assert!(count > 0, "attempt to clone a deallocated Phoenix")`
at src/src/lib.rs:73: `true` means the assertion passes. -/
def cloneDebugAssert {T : Type} (c : CellSt T) : Bool :=
  decide (0 < c.refCount)

/-- `impl Drop for Phoenix` (src/src/lib.rs:91-115): store `count - 1`; when
the pre-decrement count was `1`, `dealloc` runs, firing `unsubscribe` on the
value and then releasing the box — trace `[unsub, free]`, in that order.
Subtraction only ever happens at a positive count in protocol-respecting runs;
see `dropDebugAssert` for the guard the source checks in debug builds. -/
def dropStep {T : Type} (c : CellSt T) : CellSt T × List Ev :=
  if c.refCount = 1 then ({ c with refCount := c.refCount - 1 }, [Ev.unsub, Ev.free])
  else ({ c with refCount := c.refCount - 1 }, [])

/-- The `debug_assert!(count > 0, "double free on Phoenix attempted")` at
src/src/lib.rs:95: `true` means the assertion passes. -/
def dropDebugAssert {T : Type} (c : CellSt T) : Bool :=
  decide (0 < c.refCount)

/-- A single-threaded step on the handles of one cell: cloning one of the
currently live handles, or dropping one of them. -/
inductive Op
  | clone
  | drop
deriving DecidableEq, Repr

/-- Run a sequence of clone/drop operations against a cell, accumulating the
emitted event trace; `none` means the process aborted on counter overflow. -/
def runFrom {T : Type} (st : CellSt T × List Ev) : List Op → Option (CellSt T × List Ev)
  | [] => some st
  | Op.clone :: rest =>
      match cloneStep st.1 with
      | none => none
      | some c => runFrom (c, st.2) rest
  | Op.drop :: rest =>
      runFrom ((dropStep st.1).1, st.2 ++ (dropStep st.1).2) rest

/-- Create a fresh cell with `Phoenix::new` and run `ops` on its handles. -/
def run {T : Type} (d : T) (ops : List Op) : Option (CellSt T × List Ev) :=
  runFrom (phoenixNewTr d) ops

/-- `validFrom n ops`: each operation acts on a currently live handle. `n` is
the number of undropped handles, so every step requires `1 ≤ n`; `n`
increments on clone and decrements on drop. -/
def validFrom : Nat → List Op → Bool
  | _, [] => true
  | n, Op.clone :: rest => decide (1 ≤ n) && validFrom (n + 1) rest
  | n, Op.drop :: rest => decide (1 ≤ n) && validFrom (n - 1) rest

/-- Number of undropped handles after running `ops`, starting from `n`. -/
def liveAfterFrom : Nat → List Op → Nat
  | n, [] => n
  | n, Op.clone :: rest => liveAfterFrom (n + 1) rest
  | n, Op.drop :: rest => liveAfterFrom (n - 1) rest

/-- State of one thread's `thread_local!` slot behind a `PhoenixKey`
(the `__SLOW` static produced at src/src/lib.rs:213-218): `absent` before
first access, `alive` while the stored `Phoenix` handle exists, `tornDown`
after the platform destroyed the slot (`LocalKey::try_with` returns `Err`). -/
inductive Slot (T : Type)
  | absent
  | alive (c : CellSt T)
  | tornDown
deriving DecidableEq, Repr

/-- `PhoenixKey::with` (src/src/lib.rs:187-194). The caller's closure is an
action `g` on the backing cell, so that `handle`'s `clone_raw` closure — which
bumps the count through the borrow — fits the same shape. Returns the
closure's result, the slot afterwards, the final state of the backing cell,
and the trace of the call; `none` is a counter-overflow abort inside the
closure. The arms: `absent` lazily constructs the slot's cell via
`Phoenix::new`; `alive` borrows the stored cell; `tornDown` is the `None`
branch of `try_with(..).ok()`, which calls `run_on_default`
(src/src/lib.rs:158-165): `f(&*Phoenix::new())`, the originating handle being
dropped when the call expression ends. -/
def withCell {T O : Type} (slot : Slot T) (d : T) (g : CellSt T → Option (O × CellSt T)) :
    Option (O × Slot T × CellSt T × List Ev) :=
  match slot with
  | Slot.absent =>
      match g (phoenixNewTr d).1 with
      | none => none
      | some (o, c) => some (o, Slot.alive c, c, (phoenixNewTr d).2 ++ [Ev.call])
  | Slot.alive c =>
      match g c with
      | none => none
      | some (o, c2) => some (o, Slot.alive c2, c2, [Ev.call])
  | Slot.tornDown =>
      match g (phoenixNewTr d).1 with
      | none => none
      | some (o, c) =>
          some (o, Slot.tornDown, (dropStep c).1, (phoenixNewTr d).2 ++ [Ev.call] ++ (dropStep c).2)

/-- An ordinary borrowing closure `f: FnOnce(&T) -> O`: it reads the value and
leaves the backing cell untouched. -/
def pureClosure {T O : Type} (f : T → O) : CellSt T → Option (O × CellSt T) :=
  fun c => some (f c.value, c)

/-- `PhoenixKey::with` applied to an ordinary borrowing closure. -/
def withK {T O : Type} (slot : Slot T) (d : T) (f : T → O) :
    Option (O × Slot T × CellSt T × List Ev) :=
  withCell slot d (pureClosure f)

/-- `Phoenix::clone_raw` (src/src/lib.rs:133-140) as the closure passed by
`handle`: recover the handle backing the borrowed value and clone it. The
returned handle is the closure result (its identity is the shared cell, so the
result proper is `Unit` here); the count bump lands on the backing cell. -/
def cloneRawG {T : Type} (c : CellSt T) : Option (Unit × CellSt T) :=
  match cloneStep c with
  | none => none
  | some c2 => some ((), c2)

/-- `PhoenixKey::handle` (src/src/lib.rs:181-185), written out arm by arm as
the compiler unfolds `self.with(|x| unsafe { Phoenix::clone_raw(x.into()) })`;
proved equal to `withCell _ _ cloneRawG` in the C5 theorem. The cell in the
result is the cell owned by the returned handle, in its state at return. -/
def handleK {T : Type} (slot : Slot T) (d : T) : Option (Unit × Slot T × CellSt T × List Ev) :=
  match slot with
  | Slot.absent =>
      match cloneStep (phoenixNewTr d).1 with
      | none => none
      | some c => some ((), Slot.alive c, c, (phoenixNewTr d).2 ++ [Ev.call])
  | Slot.alive c =>
      match cloneStep c with
      | none => none
      | some c2 => some ((), Slot.alive c2, c2, [Ev.call])
  | Slot.tornDown =>
      match cloneStep (phoenixNewTr d).1 with
      | none => none
      | some c =>
          some ((), Slot.tornDown, (dropStep c).1, (phoenixNewTr d).2 ++ [Ev.call] ++ (dropStep c).2)

/-- `PhoenixKey<T>` (src/src/lib.rs:167-170): a struct with exactly one field,
`pub __get: &'static LocalKey<Phoenix<T>>`, the static reference identifying
which `thread_local!` slot family the accessor reaches. The reference is
abstracted by the address of the referenced static; each `phoenix_tls!`
declaration introduces a distinct static (src/src/lib.rs:210-221), hence a
distinct address. -/
structure PhoenixKey where
  __get : Nat
deriving DecidableEq, Repr

/-- `impl Clone for PhoenixKey` (src/src/lib.rs:172-177): `*self`. -/
def PhoenixKey.clone (k : PhoenixKey) : PhoenixKey := k

/-! ## Claim theorems: the per-operation claims C2-C7, C10 -/

/-- Claim C4: `Phoenix::new` allocates a cell whose `ref_count` is exactly 1
and whose value is the default value, fires `subscribe` exactly once during
construction — the trace at the moment the owning handle is returned is
exactly `[sub]` — and returns that handle. -/
theorem c4_new_initializes {T : Type} (d : T) :
    (phoenixNewTr d).1.refCount = 1 ∧
    (phoenixNewTr d).1.value = d ∧
    (phoenixNewTr d).2 = [Ev.sub] ∧
    ((phoenixNewTr d).2.count Ev.sub = 1 ∧ (phoenixNewTr d).2.count Ev.unsub = 0) :=
  ⟨rfl, rfl, rfl, rfl, rfl⟩

/-- Claim C3: dropping a handle decrements the cell's `ref_count` by one; on
the 1 → 0 transition the trace of the drop is exactly `[unsub, free]` —
`unsubscribe` fires exactly once, strictly before the box is released — and on
any other drop the trace is empty, so memory is released only on the
zero-reaching drop. -/
theorem c3_drop_decrements {T : Type} (c : CellSt T) (_h : 1 ≤ c.refCount) :
    (dropStep c).1.refCount = c.refCount - 1 ∧
    (c.refCount = 1 → (dropStep c).2 = [Ev.unsub, Ev.free]) ∧
    (1 < c.refCount → (dropStep c).2 = []) := by
  refine ⟨?_, ?_, ?_⟩
  · by_cases h1 : c.refCount = 1 <;> simp [dropStep, h1]
  · intro h1; simp [dropStep, h1]
  · intro h1
    have hne : c.refCount ≠ 1 := by omega
    simp [dropStep, hne]

/-- Witness for C3 at concrete cells: a drop at count 1 reaches 0 and emits
`[unsub, free]`; a drop at count 2 emits nothing. -/
theorem c3_witness :
    (dropStep (⟨0, 1⟩ : CellSt Nat)).1.refCount = 1 - 1 ∧
    (dropStep (⟨0, 1⟩ : CellSt Nat)).2 = [Ev.unsub, Ev.free] ∧
    (dropStep (⟨0, 2⟩ : CellSt Nat)).2 = [] :=
  ⟨(c3_drop_decrements ⟨0, 1⟩ (by decide)).1,
   (c3_drop_decrements ⟨0, 1⟩ (by decide)).2.1 rfl,
   (c3_drop_decrements ⟨0, 2⟩ (by decide)).2.2 (by decide)⟩

/-- Claim C6: cloning a handle increments the cell's `ref_count` by one, and
cloning at any count strictly between 0 and `usize::MAX` succeeds without
aborting; when the count is `usize::MAX` (= `WORD - 1`), the wrapped count is
0 and the process aborts instead of wrapping. -/
theorem c6_clone_overflow_aborts {T : Type} (c : CellSt T) :
    (0 < c.refCount → c.refCount < WORD - 1 →
       cloneStep c = some ⟨c.value, c.refCount + 1⟩) ∧
    (c.refCount = WORD - 1 → cloneStep c = none) := by
  constructor
  · intro h1 h2
    have hpos : 0 < WORD := by decide
    have hlt : c.refCount + 1 < WORD := by omega
    have hmod : (c.refCount + 1) % WORD = c.refCount + 1 := Nat.mod_eq_of_lt hlt
    simp [cloneStep, hmod]
  · intro h
    have hpos : 0 < WORD := by decide
    have hmod : (c.refCount + 1) % WORD = 0 := by
      have h1 : c.refCount + 1 = WORD := by omega
      rw [h1, Nat.mod_self]
    simp [cloneStep, hmod]

/-- Witness for C6: a clone at count 5 yields count 6; a clone at count
`usize::MAX` aborts. -/
theorem c6_witness :
    cloneStep (⟨0, 5⟩ : CellSt Nat) = some ⟨0, 6⟩ ∧
    cloneStep (⟨0, WORD - 1⟩ : CellSt Nat) = none :=
  ⟨(c6_clone_overflow_aborts ⟨0, 5⟩).1 (by decide) (by decide),
   (c6_clone_overflow_aborts ⟨0, WORD - 1⟩).2 rfl⟩

/-- Claim C2: `PhoenixKey::with` never fails from the caller's perspective —
it produces a result for every slot state and every closure — and on the
torn-down path it builds a brand-new cell via `Phoenix::new`, invokes the
closure exactly once with a borrow of that cell's (default) value, returns the
closure's result, and the ephemeral cell's `subscribe`/`unsubscribe` both fire
within the call, bracketing the closure invocation: the trace is exactly
`[sub, call, unsub, free]`. -/
theorem c2_with_total_and_fallback {T O : Type} :
    (∀ (slot : Slot T) (d : T) (f : T → O), (withK slot d f).isSome = true) ∧
    (∀ (d : T) (f : T → O),
       withK Slot.tornDown d f =
         some (f d, Slot.tornDown, ⟨d, 0⟩, [Ev.sub, Ev.call, Ev.unsub, Ev.free])) := by
  constructor
  · intro slot d f
    cases slot <;> rfl
  · intro d f
    rfl

/-- Claim C7 counterexample: on the Absent → Alive lazy-construction call —
which the claim counts as the fast path and asserts fires no hook — the
`thread_local!` initializer runs `Phoenix::new`, which fires `subscribe`: the
call's trace contains one `sub` event, not zero. -/
theorem c7_counterexample :
    ¬ ((withK Slot.absent (0 : Nat) (fun x => x)).map
         (fun y => y.2.2.2.count Ev.sub) = some 0) := by
  decide

/-- Claim C7 amended: on an already-Alive slot, `with` invokes the closure
exactly once with a borrow of the stored value, changes no `ref_count`,
returns the closure's result, and fires no hook (trace `[call]`); on the
Absent → Alive transition it behaves the same except that the lazy
`Phoenix::new` fires `subscribe` exactly once (trace `[sub, call]`, and the
new cell's count is 1 from construction, never touched by `with` itself); no
`unsubscribe` fires on either path. -/
theorem c7_fast_path {T O : Type} (c : CellSt T) (d : T) (f : T → O) :
    withK (Slot.alive c) d f = some (f c.value, Slot.alive c, c, [Ev.call]) ∧
    withK Slot.absent d f = some (f d, Slot.alive ⟨d, 1⟩, ⟨d, 1⟩, [Ev.sub, Ev.call]) :=
  ⟨rfl, rfl⟩

/-- Claim C5: `PhoenixKey::handle` is `with` applied to the `clone_raw`
closure; on the teardown-fallback path the ephemeral cell takes an extra
retain before the originating handle is released, so the call returns with
the cell's count settled at exactly 1 and no `unsubscribe` in the call's
trace (`[sub, call]`); `unsubscribe` fires only when the returned handle is
itself dropped. -/
theorem c5_handle_is_with_clone {T : Type} :
    (∀ (slot : Slot T) (d : T), handleK slot d = withCell slot d cloneRawG) ∧
    (∀ d : T, handleK Slot.tornDown d =
       some ((), Slot.tornDown, ⟨d, 1⟩, [Ev.sub, Ev.call])) ∧
    (∀ d : T, dropStep (⟨d, 1⟩ : CellSt T) = (⟨d, 0⟩, [Ev.unsub, Ev.free])) := by
  refine ⟨?_, ?_, ?_⟩
  · intro slot d
    cases slot with
    | absent => rfl
    | alive c => cases hc : cloneStep c <;> simp [handleK, withCell, cloneRawG, hc]
    | tornDown => rfl
  · intro d
    rfl
  · intro d
    rfl

/-- Claim C10 counterexample: a zero-sized type carries no per-instance
runtime data, so any two of its values are indistinguishable; but `PhoenixKey`
holds a `&'static LocalKey` field, and keys produced by two distinct
`phoenix_tls!` declarations hold distinct static references — two concrete
keys differ, so `PhoenixKey` is pointer-sized, not zero-sized. -/
theorem c10_counterexample :
    PhoenixKey.mk 0 ≠ PhoenixKey.mk 1 ∧ ¬ (∀ a b : PhoenixKey, a = b) := by
  constructor
  · decide
  · intro h
    exact absurd (h ⟨0⟩ ⟨1⟩) (by decide)

/-- Claim C10 amended: `PhoenixKey` is an immutable, freely copyable
descriptor — its `Clone` is the identity — whose only per-instance state is
the single field identifying which slot family it refers to: keys with the
same `__get` reference are equal. It is pointer-sized (one reference field),
not zero-sized. -/
theorem c10_key_descriptor :
    (∀ k : PhoenixKey, PhoenixKey.clone k = k) ∧
    (∀ a b : PhoenixKey, a.__get = b.__get → a = b) := by
  constructor
  · intro k
    rfl
  · intro a b h
    cases a
    cases b
    cases h
    rfl

/-- Witness for C10 (amended) at a concrete key. -/
theorem c10_witness :
    PhoenixKey.clone ⟨7⟩ = (⟨7⟩ : PhoenixKey) ∧ (⟨7⟩ : PhoenixKey) = ⟨7⟩ :=
  ⟨c10_key_descriptor.1 ⟨7⟩, c10_key_descriptor.2 ⟨7⟩ ⟨7⟩ rfl⟩

/-! ## The reference-counting invariant over whole clone/drop histories (C1, C8) -/

/-- Invariant of any valid clone/drop history: starting from a cell whose
count equals the number `n` of live handles and a trace with no `unsub`
event, a completed run ends with the count equal to the number of remaining
live handles, the value untouched, exactly one `unsub` event if and only if
the last handle was dropped, and the `sub` events unchanged. -/
theorem runFrom_invariant {T : Type} :
    ∀ (ops : List Op) (n : Nat) (c : CellSt T) (tr : List Ev),
      c.refCount = n → 1 ≤ n → n < WORD → tr.count Ev.unsub = 0 →
      validFrom n ops = true →
      ∀ (s : CellSt T) (tr2 : List Ev), runFrom (c, tr) ops = some (s, tr2) →
        s.refCount = liveAfterFrom n ops ∧
        s.value = c.value ∧
        tr2.count Ev.unsub = (if liveAfterFrom n ops = 0 then 1 else 0) ∧
        tr2.count Ev.sub = tr.count Ev.sub := by
  intro ops
  induction ops with
  | nil =>
      intro n c tr hrc h1 hW hcnt hvalid s tr2 hrun
      simp only [runFrom, Option.some.injEq, Prod.mk.injEq] at hrun
      obtain ⟨rfl, rfl⟩ := hrun
      refine ⟨hrc, rfl, ?_, rfl⟩
      rw [liveAfterFrom, if_neg (by omega), hcnt]
  | cons op rest ih =>
      intro n c tr hrc h1 hW hcnt hvalid s tr2 hrun
      cases op with
      | clone =>
          simp only [validFrom, Bool.and_eq_true, decide_eq_true_eq] at hvalid
          obtain ⟨hn, hvalid2⟩ := hvalid
          by_cases hmax : n + 1 = WORD
          · exfalso
            have hstep : cloneStep c = none := by
              have hmod : (c.refCount + 1) % WORD = 0 := by
                rw [hrc, hmax, Nat.mod_self]
              simp [cloneStep, hmod]
            simp only [runFrom, hstep] at hrun
            exact Option.noConfusion hrun
          · have hlt : n + 1 < WORD := by omega
            have hstep : cloneStep c = some ⟨c.value, n + 1⟩ := by
              have hmod : (c.refCount + 1) % WORD = n + 1 := by
                rw [hrc]
                exact Nat.mod_eq_of_lt hlt
              simp [cloneStep, hmod]
            simp only [runFrom, hstep] at hrun
            have h := ih (n + 1) ⟨c.value, n + 1⟩ tr rfl (by omega) hlt hcnt hvalid2 s tr2 hrun
            rw [liveAfterFrom]
            exact h
      | drop =>
          simp only [validFrom, Bool.and_eq_true, decide_eq_true_eq] at hvalid
          obtain ⟨hn, hvalid2⟩ := hvalid
          by_cases hone : n = 1
          · subst hone
            have hds : dropStep c = (⟨c.value, 0⟩, [Ev.unsub, Ev.free]) := by
              simp [dropStep, hrc]
            cases rest with
            | nil =>
                simp only [runFrom, hds, Option.some.injEq, Prod.mk.injEq] at hrun
                obtain ⟨rfl, rfl⟩ := hrun
                refine ⟨rfl, rfl, ?_, ?_⟩
                · simp [liveAfterFrom, List.count_append, hcnt]
                · simp [List.count_append]
            | cons b rest2 =>
                exfalso
                cases b <;> simp [validFrom] at hvalid2
          · have h2 : 2 ≤ n := by omega
            have hds : dropStep c = (⟨c.value, n - 1⟩, []) := by
              simp [dropStep, hrc, hone]
            simp only [runFrom, hds, List.append_nil] at hrun
            have h := ih (n - 1) ⟨c.value, n - 1⟩ tr rfl (by omega) (by omega) hcnt hvalid2 s tr2 hrun
            rw [liveAfterFrom]
            exact h

/-- A valid history remains valid when truncated before any operation, and at
that point at least one handle is still live (an operation needs a handle to
act on). -/
theorem validFrom_prefix :
    ∀ (p : List Op) (n : Nat) (op : Op) (rest : List Op),
      validFrom n (p ++ op :: rest) = true →
      validFrom n p = true ∧ 1 ≤ liveAfterFrom n p := by
  intro p
  induction p with
  | nil =>
      intro n op rest h
      cases op <;>
        simp only [List.nil_append, validFrom, Bool.and_eq_true, decide_eq_true_eq] at h <;>
        exact ⟨rfl, h.1⟩
  | cons a p2 ih =>
      intro n op rest h
      cases a with
      | clone =>
          simp only [List.cons_append, validFrom, Bool.and_eq_true, decide_eq_true_eq] at h ⊢
          obtain ⟨h1, h2⟩ := h
          have h3 := ih (n + 1) op rest h2
          exact ⟨⟨h1, h3.1⟩, by rw [liveAfterFrom]; exact h3.2⟩
      | drop =>
          simp only [List.cons_append, validFrom, Bool.and_eq_true, decide_eq_true_eq] at h ⊢
          obtain ⟨h1, h2⟩ := h
          have h3 := ih (n - 1) op rest h2
          exact ⟨⟨h1, h3.1⟩, by rw [liveAfterFrom]; exact h3.2⟩

/-- Claim C1: over every valid single-threaded clone/drop history on one
cell's handles (starting from the sole handle `Phoenix::new` returns), a
completed run leaves `ref_count` equal to the number of currently undropped
handles — in particular at least 1 while any handle exists — and the trace
contains exactly one `unsub` event precisely when the zero-reaching drop has
happened, and none before; `sub` fired exactly once, at creation. -/
theorem c1_refcount_tracks_handles {T : Type} (d : T) (ops : List Op)
    (hvalid : validFrom 1 ops = true)
    (s : CellSt T) (tr : List Ev)
    (hrun : run d ops = some (s, tr)) :
    s.refCount = liveAfterFrom 1 ops ∧
    (1 ≤ liveAfterFrom 1 ops → 1 ≤ s.refCount) ∧
    tr.count Ev.unsub = (if liveAfterFrom 1 ops = 0 then 1 else 0) ∧
    tr.count Ev.sub = 1 := by
  have h := runFrom_invariant ops 1 ⟨d, 1⟩ [Ev.sub] rfl (by omega) (by decide) (by decide)
    hvalid s tr hrun
  refine ⟨h.1, ?_, h.2.2.1, ?_⟩
  · intro hl
    rw [h.1]
    exact hl
  · rw [h.2.2.2]
    rfl

/-- Witness for C1 on the history clone, drop, drop: the run completes with
count 0 and trace `[sub, unsub, free]`. -/
theorem c1_witness :
    (⟨0, 0⟩ : CellSt Nat).refCount = liveAfterFrom 1 [Op.clone, Op.drop, Op.drop] ∧
    (1 ≤ liveAfterFrom 1 [Op.clone, Op.drop, Op.drop] →
       1 ≤ (⟨0, 0⟩ : CellSt Nat).refCount) ∧
    ([Ev.sub, Ev.unsub, Ev.free].count Ev.unsub =
       if liveAfterFrom 1 [Op.clone, Op.drop, Op.drop] = 0 then 1 else 0) ∧
    [Ev.sub, Ev.unsub, Ev.free].count Ev.sub = 1 :=
  c1_refcount_tracks_handles 0 [Op.clone, Op.drop, Op.drop] (by decide)
    ⟨0, 0⟩ [Ev.sub, Ev.unsub, Ev.free] (by decide)

/-- Claim C8: the debug assertions in clone and drop check `count > 0`, so
both trip exactly on a cell whose count is zero (clone of a deallocated cell,
double release); and under the protocol invariant — at any point of a valid
history where another operation is still to come — the count is positive, so
neither assertion ever fires. -/
theorem c8_debug_asserts_guard {T : Type} :
    (∀ c : CellSt T, c.refCount = 0 →
       cloneDebugAssert c = false ∧ dropDebugAssert c = false) ∧
    (∀ (d : T) (p : List Op) (op : Op) (rest : List Op),
       validFrom 1 (p ++ op :: rest) = true →
       ∀ (s : CellSt T) (tr : List Ev), run d p = some (s, tr) →
         cloneDebugAssert s = true ∧ dropDebugAssert s = true) := by
  constructor
  · intro c h
    constructor <;> simp [cloneDebugAssert, dropDebugAssert, h]
  · intro d p op rest hv s tr hrun
    obtain ⟨hvp, hlive⟩ := validFrom_prefix p 1 op rest hv
    have h := runFrom_invariant p 1 ⟨d, 1⟩ [Ev.sub] rfl (by omega) (by decide) (by decide)
      hvp s tr hrun
    have hpos : 0 < s.refCount := by
      rw [h.1]
      omega
    constructor <;> simp [cloneDebugAssert, dropDebugAssert, hpos]

/-- Witness for C8: the assertions fail at a zero-count cell, and hold at the
state reached before the first drop of a fresh cell's only handle. -/
theorem c8_witness :
    (cloneDebugAssert (⟨0, 0⟩ : CellSt Nat) = false ∧
       dropDebugAssert (⟨0, 0⟩ : CellSt Nat) = false) ∧
    (cloneDebugAssert (⟨0, 1⟩ : CellSt Nat) = true ∧
       dropDebugAssert (⟨0, 1⟩ : CellSt Nat) = true) :=
  ⟨(c8_debug_asserts_guard (T := Nat)).1 ⟨0, 0⟩ rfl,
   (c8_debug_asserts_guard (T := Nat)).2 0 [] Op.drop [] (by decide)
     ⟨0, 1⟩ [Ev.sub] (by decide)⟩

end PhoenixTls
